import Mathlib

/-!
# Verification of `@technomoron/env-loader` (`src/env-loader.ts`)

A shallow embedding of the environment-configuration loader: file discovery,
`.env` line parsing, merging, validation/conversion, the strict-access proxy,
and the template generator.  The file system, the process environment and the
current working directory are passed in explicitly as values; JavaScript
strings are modelled over their ASCII fragment (`toLowerCase`, `trim` and the
regex character classes are modelled for ASCII characters, which covers every
string the claims touch).  JavaScript numbers are modelled as exact rationals
plus signed infinities (float rounding is not modelled; NaN is represented by
`Option.none` since the loader throws before a NaN can escape).
-/

namespace EnvLoader

/-- JS whitespace for `trim` and the regex class `\s` (ASCII fragment):
space, tab, LF, CR, vertical tab, form feed. -/
def wsChar (c : Char) : Bool :=
  c = ' ' || c = '\t' || c = '\n' || c = '\r' || c = '\x0b' || c = '\x0c'

/-- The regex class `[\w.-]` used for keys in
`/^([\w.-]+)\s*=\s*(.*)$/`: word characters plus dot and hyphen. -/
def wordChar (c : Char) : Bool :=
  c.isAlphanum || c = '_' || c = '.' || c = '-'

/-- A single or double quote, the class `['"]`. -/
def isQuote (c : Char) : Bool :=
  c = '\'' || c = '"'

/-- Drop trailing whitespace from a character list. -/
def dropTrailWs (cs : List Char) : List Char :=
  ((cs.reverse).dropWhile wsChar).reverse

/-- JS `String.prototype.trim()` (ASCII fragment). -/
def jsTrim (s : String) : String :=
  String.mk (dropTrailWs (s.data.dropWhile wsChar))

/-- JS `String.prototype.toLowerCase()` (ASCII fragment). -/
def jsToLower (s : String) : String :=
  String.mk (s.data.map Char.toLower)

/-- `const normalizeKey = (k: string) => k.toLowerCase();` -/
def normalizeKey (k : String) : String := jsToLower k

/-- Prepend a character to the first chunk of a chunk list. -/
def consHead (c : Char) : List (List Char) → List (List Char)
  | [] => [[c]]
  | l :: ls => (c :: l) :: ls

/-- The line splitter `text.split(/\r?\n/)` on character lists: a separator
is a LF optionally preceded by a CR; a lone CR is ordinary content.  The
result is always non-empty. -/
def splitLinesAux : List Char → List (List Char)
  | [] => [[]]
  | '\r' :: '\n' :: rest => [] :: splitLinesAux rest
  | '\n' :: rest => [] :: splitLinesAux rest
  | c :: rest => consHead c (splitLinesAux rest)

/-- `text.split(/\r?\n/)`. -/
def splitLines (s : String) : List String :=
  (splitLinesAux s.data).map String.mk

/-- `Array.prototype.join(sep)` for a list of strings. -/
def joinSep (sep : String) : List String → String
  | [] => ""
  | [x] => x
  | x :: xs => x ++ sep ++ joinSep sep xs

/-- The match `t.match(/^([\w.-]+)\s*=\s*(.*)$/)`, returning `(m[1], m[2])`.

Because `[\w.-]`, `\s` and `=` are pairwise disjoint character sets, the
greedy left-to-right reading needs no backtracking: the key is the maximal
word-character prefix, then optional whitespace, then a literal `=`, then
optional whitespace, then the remainder.  Since `.` in JavaScript does not
match CR or LF and `$` anchors at the end of the input, a remainder still
containing a CR or LF makes the whole match fail. -/
def matchKeyValue (t : String) : Option (String × String) :=
  let cs := t.data
  let key := cs.takeWhile wordChar
  let rest := cs.dropWhile wordChar
  if key.isEmpty then none
  else
    match rest.dropWhile wsChar with
    | '=' :: rest2 =>
      let v := rest2.dropWhile wsChar
      if v.any (fun c => c = '\r' || c = '\n') then none
      else some (String.mk key, String.mk v)
    | _ => none

/-- The scan performed by `value.replace(/^['"]|['"]$/g, '')`: the engine
visits each position once; the first alternative can match only at position
0, the second only at the last position, so at every position except the
first and the last the character is kept unchanged. -/
def stripQuotesAux : List Char → Bool → List Char
  | [], _ => []
  | [c], _ =>
    if isQuote c then [] else [c]
  | c :: rest, atStart =>
    (if atStart && isQuote c then [] else [c]) ++ stripQuotesAux rest false

/-- `value.replace(/^['"]|['"]$/g, '')`. -/
def stripQuotes (s : String) : String :=
  String.mk (stripQuotesAux s.data true)

/-- `m[2].replace(/^['"]|['"]$/g, '').trim()` — the stored value of a
matched line. -/
def cleanValue (v : String) : String :=
  jsTrim (stripQuotes v)

/-- JS object assignment `acc[key] = v`: overwrite in place when the key is
already a member, append otherwise. -/
def updateAssoc {α : Type} (l : List (String × α)) (k : String) (v : α) :
    List (String × α) :=
  if l.any (fun p => p.1 == k) then
    l.map (fun p => if p.1 == k then (k, v) else p)
  else l ++ [(k, v)]

/-- Processing of one line of a `.env` file (the body of the
`for (const [i, line] of lines.entries())` loop, without the debug-only
duplicate tracking, which never affects the accumulated map). -/
def parseEnvLine (acc : List (String × String)) (line : String) :
    List (String × String) :=
  let t := jsTrim line
  if t = "" then acc
  else if t.data.head? = some '#' then acc
  else
    match matchKeyValue t with
    | some (k, v) => updateAssoc acc k (cleanValue v)
    | none => acc

/-- Parsing of one file's text into a raw environment map. -/
def parseEnvText (text : String) : List (String × String) :=
  (splitLines text).foldl parseEnvLine []

/-! ## JavaScript numbers: `Number(value)` on strings

Modelled by the ECMAScript `StringNumericLiteral` grammar over exact
rationals (float rounding is not modelled).  `none` stands for NaN; the
loader's `parse` throws exactly when `Number` yields NaN. -/

/-- A JavaScript number as produced by `Number` on a string: an exact
rational or a signed infinity. -/
inductive JsNum where
  | finite (q : ℚ)
  | posInf
  | negInf
  deriving DecidableEq

/-- Value of one digit in the given base. -/
def digitVal? (base : Nat) (c : Char) : Option Nat :=
  let v :=
    if '0' ≤ c ∧ c ≤ '9' then some (c.toNat - '0'.toNat)
    else if 'a' ≤ c ∧ c ≤ 'f' then some (c.toNat - 'a'.toNat + 10)
    else if 'A' ≤ c ∧ c ≤ 'F' then some (c.toNat - 'A'.toNat + 10)
    else none
  match v with
  | some n => if n < base then some n else none
  | none => none

def digitsValAux (base : Nat) : List Char → Nat → Option Nat
  | [], acc => some acc
  | c :: cs, acc =>
    match digitVal? base c with
    | some d => digitsValAux base cs (acc * base + d)
    | none => none

/-- Value of a non-empty all-digit string in the given base. -/
def digitsVal? (base : Nat) : List Char → Option Nat
  | [] => none
  | cs => digitsValAux base cs 0

/-- Split at the first character satisfying `p`; `none` when there is none. -/
def splitAtFirst (p : Char → Bool) : List Char → Option (List Char × List Char)
  | [] => none
  | c :: cs =>
    if p c then some ([], cs)
    else
      match splitAtFirst p cs with
      | some (a, b) => some (c :: a, b)
      | none => none

/-- `ExponentPart` after the `e`/`E`: an optionally signed digit run. -/
def parseExponent (cs : List Char) : Option Int :=
  match cs with
  | '+' :: ds => (digitsVal? 10 ds).map (fun n => (n : Int))
  | '-' :: ds => (digitsVal? 10 ds).map (fun n => -(n : Int))
  | ds => (digitsVal? 10 ds).map (fun n => (n : Int))

/-- The fractional digit run after the dot; may be empty. -/
def fracVal? : List Char → Option (Nat × Nat)
  | [] => some (0, 0)
  | cs => (digitsVal? 10 cs).map (fun n => (n, cs.length))

/-- The mantissa of `StrUnsignedDecimalLiteral` as a pair
`(digits value, number of fractional digits)`:
`DecimalDigits . DecimalDigits?`, `. DecimalDigits`, or `DecimalDigits`. -/
def parseMantissa (cs : List Char) : Option (Nat × Nat) :=
  match splitAtFirst (fun c => c = '.') cs with
  | none => (digitsVal? 10 cs).map (fun n => (n, 0))
  | some ([], fp) =>
    (digitsVal? 10 fp).map (fun n => (n, fp.length))
  | some (ip, fp) =>
    match digitsVal? 10 ip, fracVal? fp with
    | some i, some (f, len) => some (i * 10 ^ len + f, len)
    | _, _ => none

/-- The rational `num · 10 ^ (e - fracDigits)`, built with `mkRat` so that
it evaluates by kernel reduction. -/
def qOfDigits (num : Nat) (fracDigits : Nat) (e : Int) : ℚ :=
  let ex := e - (fracDigits : Int)
  if 0 ≤ ex then mkRat ((num : Int) * ((10 ^ ex.toNat : Nat) : Int)) 1
  else mkRat (num : Int) (10 ^ (-ex).toNat)

/-- `StrUnsignedDecimalLiteral`: `Infinity` or mantissa with optional
exponent. -/
def parseUnsignedDec (cs : List Char) : Option JsNum :=
  if cs = "Infinity".data then some JsNum.posInf
  else
    match splitAtFirst (fun c => c = 'e' || c = 'E') cs with
    | none => (parseMantissa cs).map (fun p => JsNum.finite (qOfDigits p.1 p.2 0))
    | some (mant, ex) =>
      match parseMantissa mant, parseExponent ex with
      | some p, some e => some (JsNum.finite (qOfDigits p.1 p.2 e))
      | _, _ => none

def jsNumNeg : JsNum → JsNum
  | JsNum.finite q => JsNum.finite (-q)
  | JsNum.posInf => JsNum.negInf
  | JsNum.negInf => JsNum.posInf

/-- `StrDecimalLiteral`: optional sign (hex/octal/binary literals admit no
sign) then an unsigned decimal literal. -/
def parseSignedDec (cs : List Char) : Option JsNum :=
  match cs with
  | '+' :: r => parseUnsignedDec r
  | '-' :: r => (parseUnsignedDec r).map jsNumNeg
  | _ => parseUnsignedDec cs

/-- ECMAScript `Number(value)` for a string: trim, empty means `0`,
`0x`/`0o`/`0b` radix literals, else a signed decimal literal; `none` is
NaN. -/
def jsNumberOfString (s : String) : Option JsNum :=
  let cs := dropTrailWs (s.data.dropWhile wsChar)
  match cs with
  | [] => some (JsNum.finite 0)
  | '0' :: b :: rest =>
    if b = 'x' ∨ b = 'X' then (digitsVal? 16 rest).map (fun n => JsNum.finite (n : ℚ))
    else if b = 'o' ∨ b = 'O' then (digitsVal? 8 rest).map (fun n => JsNum.finite (n : ℚ))
    else if b = 'b' ∨ b = 'B' then (digitsVal? 2 rest).map (fun n => JsNum.finite (n : ℚ))
    else parseSignedDec cs
  | _ => parseSignedDec cs

/-! ## Values and built-in parsing -/

/-- A runtime value of the loader: the four shapes produced by built-in
parsing, defaults, transforms and Zod schemas in this model. -/
inductive JsValue where
  | str (s : String)
  | num (n : JsNum)
  | bool (b : Bool)
  | strs (l : List String)
  deriving DecidableEq

/-- JS `String(n)`.  Exact for integral values (JavaScript prints safe
integers in plain decimal) and the infinities; non-integral rationals get a
`num/den` placeholder — shortest-round-trip float printing is not modelled
and no claim depends on it. -/
def jsNumToString : JsNum → String
  | JsNum.posInf => "Infinity"
  | JsNum.negInf => "-Infinity"
  | JsNum.finite q =>
    if q.den = 1 then toString q.num
    else toString q.num ++ "/" ++ toString q.den

/-- JS `String(v)` on the modelled value shapes (`Array.prototype.toString`
joins with commas). -/
def jsValueToString : JsValue → String
  | JsValue.str s => s
  | JsValue.num n => jsNumToString n
  | JsValue.bool b => if b then "true" else "false"
  | JsValue.strs l => joinSep "," l

/-- JS `value.split(sep)` for a one-character separator. -/
def splitOnChar (sep : Char) : List Char → List (List Char)
  | [] => [[]]
  | c :: cs =>
    if c = sep then [] :: splitOnChar sep cs
    else
      match splitOnChar sep cs with
      | [] => [[c]]
      | l :: ls => (c :: l) :: ls

def jsSplitCommas (s : String) : List String :=
  (splitOnChar ',' s.data).map String.mk

/-- The declared `type` of an option. -/
inductive EnvType where
  | string
  | number
  | boolean
  | strings
  deriving DecidableEq

/-- `EnvLoader.parse`: basic parsing of number, boolean and comma-separated
strings; the default branch (type `string` or no type) returns the raw
value unchanged. -/
def parse (value : String) (type : Option EnvType) : Except String JsValue :=
  match type with
  | some EnvType.number =>
    match jsNumberOfString value with
    | none => Except.error ("Not a number: " ++ value)
    | some n => Except.ok (JsValue.num n)
  | some EnvType.boolean =>
    let lc := jsToLower value
    if ["true", "1", "yes", "on"].contains lc then Except.ok (JsValue.bool true)
    else if ["false", "0", "no", "off"].contains lc then Except.ok (JsValue.bool false)
    else Except.ok (JsValue.bool (value != ""))
  | some EnvType.strings =>
    Except.ok (JsValue.strs ((jsSplitCommas value).map jsTrim))
  | _ => Except.ok (JsValue.str value)

/-! ## Option descriptors and validation -/

/-- `envOption` — metadata for a single environment variable.  `transform`
and `zodSchema` are modelled as optional Lean functions: a custom transform
that throws is an `Except.error` carrying the thrown message, and a Zod
schema that rejects carries its list of issue messages. -/
structure EnvOption where
  description : String := ""
  options : Option (List String) := none
  default : Option JsValue := none
  required : Bool := false
  type : Option EnvType := none
  name : Option String := none
  transform : Option (String → Except String JsValue) := none
  zodSchema : Option (String → Except (List String) JsValue) := none

/-- How a conversion failed: a thrown `ZodError` or any other thrown
error. -/
inductive ConvErr where
  | zod (issues : List String)
  | generic (msg : String)

/-- The `try` block of `validate`: custom transform if declared, else the
Zod schema, else built-in `parse`. -/
def convertRaw (opt : EnvOption) (raw : String) : Except ConvErr JsValue :=
  match opt.transform with
  | some f => (f raw).mapError ConvErr.generic
  | none =>
    match opt.zodSchema with
    | some z => (z raw).mapError ConvErr.zod
    | none => (parse raw opt.type).mapError ConvErr.generic

/-- The accumulators of `validate`: missing required keys, error messages,
and the result map. -/
structure ValState where
  missing : List String := []
  errors : List String := []
  result : List (String × JsValue) := []

/-- The message pushed for a `ZodError`. -/
def zodMsg (key : String) (issues : List String) : String :=
  let reason := joinSep "; " issues
  "'" ++ key ++ "' zod says it bad" ++ (if reason = "" then "" else ": " ++ reason)

/-- One iteration of the `for (const [key, opt] of Object.entries(opts))`
loop in `validate`. -/
def validateStep (env : List (String × String)) (st : ValState)
    (kv : String × EnvOption) : ValState :=
  let key := kv.1
  let opt := kv.2
  match List.lookup key env with
  | none =>
    match opt.default with
    | some d => { st with result := updateAssoc st.result key d }
    | none =>
      if opt.required then { st with missing := st.missing ++ [key] } else st
  | some raw =>
    match convertRaw opt raw with
    | Except.error (ConvErr.zod issues) =>
      { st with errors := st.errors ++ [zodMsg key issues] }
    | Except.error (ConvErr.generic m) =>
      { st with errors := st.errors ++ ["Error parsing '" ++ key ++ "': " ++ m] }
    | Except.ok parsed =>
      match opt.options with
      | some allowed =>
        if allowed.contains (jsValueToString parsed) then
          { st with result := updateAssoc st.result key parsed }
        else
          { st with errors :=
              st.errors ++ ["Invalid '" ++ key ++ "': " ++ jsValueToString parsed] }
      | none => { st with result := updateAssoc st.result key parsed }

def validateCore (env : List (String × String))
    (opts : List (String × EnvOption)) : ValState :=
  opts.foldl (validateStep env) {}

/-- The line `errors.unshift` prepends when required keys are missing. -/
def missingLine (missing : List String) : String :=
  "Missing required: " ++ joinSep ", " missing

/-- `EnvLoader.validate`: process every key, then fail with one joined
report when anything was collected, else return the result map. -/
def validate (env : List (String × String))
    (opts : List (String × EnvOption)) :
    Except String (List (String × JsValue)) :=
  let st := validateCore env opts
  let errors := if st.missing.isEmpty then st.errors
    else missingLine st.missing :: st.errors
  if errors.isEmpty then Except.ok st.result
  else Except.error ("Env validation failed:\n" ++ joinSep "\n" errors)

/-! ## The strict-access proxy -/

/-- The structural accessors the proxy passes through via `Reflect.get`. -/
def specialProps : List String :=
  ["toJSON", "toString", "valueOf", "constructor", "hasOwnProperty",
   "isPrototypeOf", "propertyIsEnumerable", "then"]

/-- Outcome of a proxy property access: a config value, a passthrough of a
built-in structural accessor reaching the object prototype, JavaScript
`undefined`, or a thrown error. -/
inductive ProxyResult where
  | value (v : JsValue)
  | passthrough
  | undef
  | err (msg : String)
  deriving DecidableEq

/-- The `get` trap installed by `createConfigProxy` for string properties
(symbol properties delegate to `Reflect.get` and are outside the model):
special accessors pass through, then exact member lookup, then the declared
alias names, then case-insensitive lookup, else a thrown error. -/
def proxyGet (envOptions : List (String × EnvOption))
    (target : List (String × JsValue)) (prop : String) : ProxyResult :=
  if specialProps.contains prop then
    match List.lookup prop target with
    | some v => ProxyResult.value v
    | none => ProxyResult.passthrough
  else
    match List.lookup prop target with
    | some v => ProxyResult.value v
    | none =>
      match envOptions.find? (fun kv => kv.2.name == some prop) with
      | some kv =>
        match List.lookup kv.1 target with
        | some v => ProxyResult.value v
        | none => ProxyResult.undef
      | none =>
        let lower := jsToLower prop
        match target.find? (fun kv => jsToLower kv.1 == lower) with
        | some kv => ProxyResult.value kv.2
        | none =>
          ProxyResult.err ("Undefined environment key \"" ++ prop ++ "\"")

/-! ## Template generation -/

def typeName : EnvType → String
  | EnvType.string => "string"
  | EnvType.number => "number"
  | EnvType.boolean => "boolean"
  | EnvType.strings => "strings"

/-- The `defaultValue` string of `genTemplate`: arrays join with commas,
everything else goes through `String(...)`; no declared default gives the
empty string. -/
def defaultString (opt : EnvOption) : String :=
  match opt.default with
  | none => ""
  | some (JsValue.strs l) => joinSep "," l
  | some v => jsValueToString v

/-- The comment line of one template entry. -/
def commentLine (opt : EnvOption) : String :=
  let desc := if opt.description = "" then "" else "# " ++ opt.description
  let typeInfo :=
    match opt.type with
    | some t => " [" ++ typeName t ++ "]"
    | none => ""
  let optionsInfo :=
    match opt.options with
    | some l => " Possible values: " ++ joinSep ", " l
    | none => ""
  let requiredInfo := if opt.required then " (required)" else ""
  jsTrim (desc ++ typeInfo ++ optionsInfo ++ requiredInfo)

/-- The `key=`/`key=default` line of one template entry (`defaultValue`
is tested for truthiness, i.e. non-emptiness). -/
def exampleLine (key : String) (opt : EnvOption) : String :=
  let dv := defaultString opt
  if dv = "" then key ++ "=" else key ++ "=" ++ dv

/-- The `lines` array built by `genTemplate`; the subsequent
`writeFileSync(file, lines.join('\n'))` is the external write capability. -/
def genTemplateLines (config : List (String × EnvOption)) : List String :=
  config.foldl
    (fun lines kv => lines ++ [commentLine kv.2, exampleLine kv.1 kv.2, ""]) []

/-- The text written to the template file: `lines.join('\n')`. -/
def templateText (config : List (String × EnvOption)) : String :=
  joinSep "\n" (genTemplateLines config)

/-! ## Loader configuration, discovery and merge -/

/-- `Partial<EnvLoaderConfig>` — the constructor's options argument. -/
structure EnvLoaderConfig where
  searchPaths : Option (List String) := none
  fileNames : Option (List String) := none
  merge : Option Bool := none
  cascade : Option Bool := none
  debug : Option Bool := none
  envFallback : Option Bool := none

/-- The resolved `this.config`. -/
structure ResolvedConfig where
  searchPaths : List String
  fileNames : List String
  merge : Bool
  debug : Bool
  envFallback : Bool
  cascade : Option Bool

/-- The `EnvLoader` constructor:
`options?.merge ?? options?.cascade ?? false` and the remaining defaults
(`??` is nullish coalescing, so an explicit `false` wins over a later
operand). -/
def mkConfig (options : Option EnvLoaderConfig) : ResolvedConfig :=
  let merge := (options.bind EnvLoaderConfig.merge).getD
    ((options.bind EnvLoaderConfig.cascade).getD false)
  { searchPaths := (options.bind EnvLoaderConfig.searchPaths).getD ["./"]
    fileNames := (options.bind EnvLoaderConfig.fileNames).getD [".env"]
    merge := merge
    debug := (options.bind EnvLoaderConfig.debug).getD false
    envFallback := (options.bind EnvLoaderConfig.envFallback).getD true
    cascade := options.bind EnvLoaderConfig.cascade }

/-- The file system as a value: the existing paths with their text contents
(`existsSync` is membership, `readFileSync` is lookup). -/
abbrev Fs := List (String × String)

def existsSync (fs : Fs) (p : String) : Bool := (List.lookup p fs).isSome

def readFileSync (fs : Fs) (p : String) : String := (List.lookup p fs).getD ""

/-- `path.join` modelled as slash concatenation (node's separator
normalisation is not modelled; joined paths are compared as opaque
names). -/
def joinPath (a b : String) : String := a ++ "/" ++ b

/-- Inner discovery loop: the candidate filenames inside one search
directory; a non-merging loader breaks at the first hit. -/
def scanNames (fs : Fs) (merge : Bool) (base : String) :
    List String → List String
  | [] => []
  | n :: ns =>
    let candidate := joinPath base n
    if existsSync fs candidate then
      if merge then candidate :: scanNames fs merge base ns
      else [candidate]
    else scanNames fs merge base ns

/-- Outer discovery loop over the search directories; once any file has
been found, a non-merging loader stops. -/
def scanPaths (fs : Fs) (merge : Bool) (fileNames : List String) :
    List String → List String
  | [] => []
  | base :: bases =>
    let found := scanNames fs merge base fileNames
    if !merge && !found.isEmpty then found
    else found ++ scanPaths fs merge fileNames bases

/-- `EnvLoader.loadEnvFiles`: discover the files, then parse them in order
into one accumulated raw map (a later occurrence of a key overwrites an
earlier one). -/
def loadEnvFiles (cfg : ResolvedConfig) (cwd : String) (fs : Fs) :
    List (String × String) :=
  let searchList := cfg.searchPaths.map (joinPath cwd)
  let filesInOrder := scanPaths fs cfg.merge cfg.fileNames searchList
  filesInOrder.foldl
    (fun acc f => (splitLines (readFileSync fs f)).foldl parseEnvLine acc) []

/-- `EnvLoader.load`: for each schema key, a case-insensitive lookup in the
file entries, then — when `envFallback` is on — in the process
environment. -/
def load (envOptions : List (String × EnvOption)) (cfg : ResolvedConfig)
    (cwd : String) (fs : Fs) (procEnv : List (String × String)) :
    List (String × String) :=
  let fileEntries := loadEnvFiles cfg cwd fs
  envOptions.foldl
    (fun out kv =>
      let key := kv.1
      let norm := normalizeKey key
      match fileEntries.find? (fun e => normalizeKey e.1 == norm) with
      | some e => updateAssoc out key e.2
      | none =>
        if cfg.envFallback then
          match procEnv.find? (fun e => normalizeKey e.1 == norm) with
          | some e => updateAssoc out key e.2
          | none => out
        else out)
    []

/-! ## Auxiliary notions used to state the verified properties -/

/-- One leading quote character removed, when present (the effect of the
`^['"]` alternative alone). -/
def dropLeadQuote (cs : List Char) : List Char :=
  match cs with
  | c :: rest => if isQuote c then rest else cs
  | [] => []

/-- One trailing quote character removed, when present (the effect of the
`['"]$` alternative alone). -/
def dropTrailQuote (cs : List Char) : List Char :=
  if (cs.getLast?.elim false isQuote) then cs.dropLast else cs

/-- No carriage return and no line feed anywhere in the string. -/
def crlfFree (s : String) : Bool :=
  s.data.all (fun c => !(c = '\n') && !(c = '\r'))

/-- A non-empty string made of regex word characters (a string fully
matched by the parser's key pattern `[\w.-]+`). -/
def validKey (k : String) : Bool :=
  !k.data.isEmpty && k.data.all wordChar

/-- A string undisturbed by the parser's value cleanup: no CR/LF, and its
edges are neither whitespace nor quote characters. -/
def cleanToken (s : String) : Bool :=
  crlfFree s
    && s.data.head?.all (fun c => !wsChar c && !isQuote c)
    && s.data.getLast?.all (fun c => !wsChar c && !isQuote c)

/-- The lines of a validation failure report: the missing-required line
(when any required key is missing) followed by the collected per-key error
messages, in collection order. -/
def reportLines (st : ValState) : List String :=
  (if st.missing.isEmpty then [] else [missingLine st.missing]) ++ st.errors

/-- Decidable equality for `Except`, used to evaluate the loader's results
on concrete inputs. -/
instance {ε α : Type} [DecidableEq ε] [DecidableEq α] :
    DecidableEq (Except ε α) := fun x y =>
  match x, y with
  | Except.ok a, Except.ok b =>
    if h : a = b then isTrue (by rw [h])
    else isFalse (fun hh => h (Except.ok.inj hh))
  | Except.error a, Except.error b =>
    if h : a = b then isTrue (by rw [h])
    else isFalse (fun hh => h (Except.error.inj hh))
  | Except.ok _, Except.error _ => isFalse (fun hh => Except.noConfusion hh)
  | Except.error _, Except.ok _ => isFalse (fun hh => Except.noConfusion hh)

/-! ## Helper lemmas about the string primitives -/

theorem ws_not_wordChar {c : Char} (h : wsChar c = true) : wordChar c = false := by
  simp only [wsChar, Bool.or_eq_true, decide_eq_true_eq] at h
  rcases h with ((((h | h) | h) | h) | h) | h <;> subst h <;> decide

theorem wordChar_not_ws {c : Char} (h : wordChar c = true) : wsChar c = false := by
  cases hw : wsChar c
  · rfl
  · rw [ws_not_wordChar hw] at h
    exact absurd h (by simp)

theorem dropWhile_append_nonp {p : Char → Bool} {c : Char} (hc : p c = false)
    (u v : List Char) :
    (u ++ c :: v).dropWhile p = u.dropWhile p ++ c :: v := by
  induction u with
  | nil => simp [List.dropWhile_cons, hc]
  | cons x u ih =>
    by_cases hx : p x = true
    · simp [List.dropWhile_cons, hx, ih]
    · simp [List.dropWhile_cons, hx]

theorem dropTrailWs_append_keep {c : Char} (hc : wsChar c = false)
    (u w : List Char) :
    dropTrailWs (u ++ c :: w) = u ++ c :: dropTrailWs w := by
  unfold dropTrailWs
  rw [show u ++ c :: w = (u ++ [c]) ++ w by simp, List.reverse_append,
    List.reverse_append]
  simp only [List.reverse_cons, List.reverse_nil, List.nil_append,
    List.append_assoc, List.singleton_append]
  rw [dropWhile_append_nonp hc, List.reverse_append]
  simp

theorem dropTrailWs_cons {c : Char} (hc : wsChar c = false) (l : List Char) :
    dropTrailWs (c :: l) = c :: dropTrailWs l := by
  simpa using dropTrailWs_append_keep hc [] l

theorem dropTrailWs_eq_self {l : List Char}
    (h : ∀ c, l.getLast? = some c → wsChar c = false) :
    dropTrailWs l = l := by
  unfold dropTrailWs
  cases hrev : l.reverse with
  | nil =>
    have hl : l = [] := by simpa using congrArg List.reverse hrev
    simp [hl]
  | cons x xs =>
    have hx : l.getLast? = some x := by
      rw [← List.head?_reverse, hrev]; rfl
    rw [List.dropWhile_cons, h x hx]
    simp [← hrev]

theorem jsTrim_eq_self {s : String}
    (h1 : ∀ c, s.data.head? = some c → wsChar c = false)
    (h2 : ∀ c, s.data.getLast? = some c → wsChar c = false) :
    jsTrim s = s := by
  obtain ⟨data⟩ := s
  cases data with
  | nil => rfl
  | cons c l =>
    have hc : wsChar c = false := h1 c rfl
    show String.mk (dropTrailWs ((c :: l).dropWhile wsChar)) = String.mk (c :: l)
    rw [List.dropWhile_cons, hc]
    simp only [Bool.false_eq_true, if_false]
    rw [dropTrailWs_eq_self h2]

theorem takeWhile_all_append {p : Char → Bool} {u : List Char}
    (hu : ∀ c ∈ u, p c = true) {c : Char} (hc : p c = false) (v : List Char) :
    (u ++ c :: v).takeWhile p = u ∧ (u ++ c :: v).dropWhile p = c :: v := by
  induction u with
  | nil => simp [List.takeWhile_cons, List.dropWhile_cons, hc]
  | cons x u ih =>
    have hx : p x = true := hu x (by simp)
    have ih2 := ih (fun d hd => hu d (by simp [hd]))
    simp [List.takeWhile_cons, List.dropWhile_cons, hx, ih2.1, ih2.2]

theorem updateAssoc_of_fresh {α : Type} {l : List (String × α)} {k : String}
    (h : ∀ p ∈ l, p.1 ≠ k) (v : α) : updateAssoc l k v = l ++ [(k, v)] := by
  unfold updateAssoc
  have hfalse : l.any (fun p => p.1 == k) = false := by
    rw [List.any_eq_false]
    intro p hp
    simp [h p hp]
  rw [hfalse]
  simp

theorem splitLinesAux_cons_other {c : Char} (h1 : c ≠ '\n') (h2 : c ≠ '\r')
    (rest : List Char) :
    splitLinesAux (c :: rest) = consHead c (splitLinesAux rest) := by
  rw [splitLinesAux.eq_def]
  split
  · rename_i heq; simp at heq
  · rename_i heq; rw [List.cons.injEq] at heq; exact absurd heq.1 h2
  · rename_i heq; rw [List.cons.injEq] at heq; exact absurd heq.1 h1
  · rename_i c2 rest2 heq; rw [List.cons.injEq] at heq
    rw [heq.1, heq.2]

theorem crlfFree_iff {s : String} :
    crlfFree s = true ↔ ∀ c ∈ s.data, c ≠ '\n' ∧ c ≠ '\r' := by
  simp [crlfFree, List.all_eq_true]

theorem splitLinesAux_of_crlfFree {cs : List Char}
    (h : ∀ c ∈ cs, c ≠ '\n' ∧ c ≠ '\r') : splitLinesAux cs = [cs] := by
  induction cs with
  | nil => rfl
  | cons c l ih =>
    have hc := h c (by simp)
    rw [splitLinesAux_cons_other hc.1 hc.2, ih (fun d hd => h d (by simp [hd]))]
    rfl

theorem splitLinesAux_sep {a : List Char}
    (h : ∀ c ∈ a, c ≠ '\n' ∧ c ≠ '\r') (b : List Char) :
    splitLinesAux (a ++ '\n' :: b) = a :: splitLinesAux b := by
  induction a with
  | nil => rfl
  | cons c l ih =>
    have hc := h c (by simp)
    rw [List.cons_append, splitLinesAux_cons_other hc.1 hc.2,
      ih (fun d hd => h d (by simp [hd]))]
    rfl

theorem data_append (a b : String) : (a ++ b).data = a.data ++ b.data := rfl

theorem splitLines_joinSep : ∀ (L : List String), L ≠ [] →
    (∀ m ∈ L, crlfFree m = true) → splitLines (joinSep "\n" L) = L
  | [], hne, _ => absurd rfl hne
  | [x], _, h => by
      have hx := crlfFree_iff.mp (h x (by simp))
      show (splitLinesAux (joinSep "\n" [x]).data).map String.mk = [x]
      rw [show joinSep "\n" [x] = x from rfl, splitLinesAux_of_crlfFree hx]
      rfl
  | x :: y :: ys, _, h => by
      have hx := crlfFree_iff.mp (h x (by simp))
      have ih := splitLines_joinSep (y :: ys) (by simp)
        (fun m hm => h m (by simp [hm]))
      show (splitLinesAux (joinSep "\n" (x :: y :: ys)).data).map String.mk = _
      have hdata : (joinSep "\n" (x :: y :: ys)).data
          = x.data ++ '\n' :: (joinSep "\n" (y :: ys)).data := by
        show ((x ++ "\n") ++ joinSep "\n" (y :: ys)).data = _
        rw [data_append, data_append, List.append_assoc]
        rfl
      rw [hdata, splitLinesAux_sep hx]
      show x :: splitLines (joinSep "\n" (y :: ys)) = x :: y :: ys
      rw [ih]

theorem mem_joinSep_infix (sep : String) {m : String} :
    ∀ {L : List String}, m ∈ L → m.data.IsInfix (joinSep sep L).data
  | [], hm => absurd hm (by simp)
  | [x], hm => by
      have hx : m = x := by simpa using hm
      subst hx
      exact List.infix_rfl
  | x :: y :: ys, hm => by
      rcases List.mem_cons.mp hm with h | h
      · subst h
        have hd : (joinSep sep (m :: y :: ys)).data
            = m.data ++ (sep.data ++ (joinSep sep (y :: ys)).data) := by
          show ((m ++ sep) ++ joinSep sep (y :: ys)).data = _
          rw [data_append, data_append, List.append_assoc]
        rw [hd]
        exact (List.prefix_append _ _).isInfix
      · have ih := mem_joinSep_infix sep (L := y :: ys) h
        have hsuffix : (joinSep sep (y :: ys)).data.IsSuffix
            (joinSep sep (x :: y :: ys)).data := by
          have hd : (joinSep sep (x :: y :: ys)).data
              = (x ++ sep).data ++ (joinSep sep (y :: ys)).data := data_append _ _
          rw [hd]
          exact List.suffix_append _ _
        exact ih.trans hsuffix.isInfix

theorem dropTrailQuote_cons_cons (c y : Char) (ys : List Char) :
    dropTrailQuote (c :: y :: ys) = c :: dropTrailQuote (y :: ys) := by
  unfold dropTrailQuote
  rw [List.getLast?_cons_cons]
  by_cases h : ((y :: ys).getLast?.elim false isQuote) = true
  · rw [if_pos h, if_pos h]; rfl
  · rw [if_neg h, if_neg h]

theorem stripQuotesAux_not_atStart : ∀ (cs : List Char),
    stripQuotesAux cs false = dropTrailQuote cs
  | [] => rfl
  | [c] => by
      show (if isQuote c then [] else [c]) = dropTrailQuote [c]
      by_cases h : isQuote c = true
      · rw [if_pos h]; simp [dropTrailQuote, h]
      · rw [if_neg h]; simp [dropTrailQuote, h]
  | c :: y :: ys => by
      have ih := stripQuotesAux_not_atStart (y :: ys)
      show [c] ++ stripQuotesAux (y :: ys) false = dropTrailQuote (c :: y :: ys)
      rw [ih, dropTrailQuote_cons_cons]
      rfl

theorem stripQuotes_eq (s : String) :
    stripQuotes s = String.mk (dropTrailQuote (dropLeadQuote s.data)) := by
  obtain ⟨data⟩ := s
  match data with
  | [] => rfl
  | [c] =>
    show String.mk (if isQuote c then [] else [c]) = _
    by_cases h : isQuote c = true
    · rw [if_pos h]; simp [dropLeadQuote, dropTrailQuote, h]
    · rw [if_neg h]; simp [dropLeadQuote, dropTrailQuote, h]
  | c :: y :: ys =>
    show String.mk ((if isQuote c then [] else [c]) ++ stripQuotesAux (y :: ys) false) = _
    rw [stripQuotesAux_not_atStart]
    by_cases h : isQuote c = true
    · rw [if_pos h]
      simp [dropLeadQuote, h]
    · rw [if_neg h]
      rw [show dropLeadQuote (c :: y :: ys) = c :: y :: ys by simp [dropLeadQuote, h]]
      rw [dropTrailQuote_cons_cons]
      rfl

theorem foldl_append_blocks {α β : Type} (f : α → List β) :
    ∀ (l : List α) (acc : List β),
      l.foldl (fun lines kv => lines ++ f kv) acc = acc ++ l.flatMap f
  | [], acc => by simp
  | x :: l, acc => by
      rw [List.foldl_cons, foldl_append_blocks f l (acc ++ f x)]
      simp [List.flatMap_cons]

theorem genTemplateLines_eq (config : List (String × EnvOption)) :
    genTemplateLines config
      = config.flatMap (fun kv => [commentLine kv.2, exampleLine kv.1 kv.2, ""]) := by
  unfold genTemplateLines
  rw [foldl_append_blocks]
  rfl

theorem head?_dropWhile_nonp (p : Char → Bool) :
    ∀ (l : List Char) (c : Char), (l.dropWhile p).head? = some c → p c = false
  | [], c, h => by simp at h
  | x :: l, c, h => by
      by_cases hx : p x = true
      · rw [List.dropWhile_cons, if_pos hx] at h
        exact head?_dropWhile_nonp p l c h
      · rw [List.dropWhile_cons, if_neg hx] at h
        cases h
        simpa using hx

theorem head?_dropTrailWs {l : List Char} {c : Char}
    (h : (dropTrailWs l).head? = some c) : l.head? = some c := by
  have hsuffix : (l.reverse.dropWhile wsChar) <:+ l.reverse :=
    List.dropWhile_suffix wsChar
  have hpre : dropTrailWs l <+: l := by
    have := List.reverse_prefix.mpr hsuffix
    simpa [dropTrailWs] using this
  obtain ⟨t, ht⟩ := hpre
  rw [← ht]
  cases hd : dropTrailWs l with
  | nil => rw [hd] at h; simp at h
  | cons x xs =>
    rw [hd] at h
    cases h
    rfl

theorem head?_jsTrim_nonws {s : String} {c : Char}
    (h : (jsTrim s).data.head? = some c) : wsChar c = false := by
  have h2 : (dropTrailWs (s.data.dropWhile wsChar)).head? = some c := h
  exact head?_dropWhile_nonp wsChar s.data c (head?_dropTrailWs h2)

theorem getLast?_jsTrim_nonws {s : String} {c : Char}
    (h : (jsTrim s).data.getLast? = some c) : wsChar c = false := by
  have h2 : ((s.data.dropWhile wsChar).reverse.dropWhile wsChar).reverse.getLast?
      = some c := h
  rw [List.getLast?_reverse] at h2
  exact head?_dropWhile_nonp wsChar _ c h2

theorem jsTrim_idem (s : String) : jsTrim (jsTrim s) = jsTrim s :=
  jsTrim_eq_self (fun _ h => head?_jsTrim_nonws h)
    (fun _ h => getLast?_jsTrim_nonws h)

theorem parseEnvLine_jsTrim (acc : List (String × String)) (s : String) :
    parseEnvLine acc (jsTrim s) = parseEnvLine acc s := by
  unfold parseEnvLine
  rw [jsTrim_idem]

theorem jsTrim_cons_shape {c : Char} (hc : wsChar c = false) (l : List Char) :
    jsTrim (String.mk (c :: l)) = String.mk (c :: dropTrailWs l) := by
  show String.mk (dropTrailWs ((c :: l).dropWhile wsChar)) = _
  rw [List.dropWhile_cons, hc]
  simp only [Bool.false_eq_true, if_false]
  rw [dropTrailWs_cons hc]

theorem jsTrim_ws_cons {c : Char} (hc : wsChar c = true) (l : List Char) :
    jsTrim (String.mk (c :: l)) = jsTrim (String.mk l) := by
  show String.mk (dropTrailWs ((c :: l).dropWhile wsChar)) = _
  rw [List.dropWhile_cons, hc]
  rfl

theorem parseEnvLine_ws_cons {c : Char} (hc : wsChar c = true)
    (acc : List (String × String)) (l : List Char) :
    parseEnvLine acc (String.mk (c :: l)) = parseEnvLine acc (String.mk l) := by
  unfold parseEnvLine
  rw [jsTrim_ws_cons hc]

theorem parseEnvLine_hash (acc : List (String × String)) (l : List Char) :
    parseEnvLine acc (String.mk ('#' :: l)) = acc := by
  unfold parseEnvLine
  rw [jsTrim_cons_shape (by decide) l]
  rfl

theorem parseEnvLine_inert (acc : List (String × String)) (c : Char)
    (l : List Char) (hws : wsChar c = false) (hword : wordChar c = false)
    (hhash : c ≠ '#') :
    parseEnvLine acc (String.mk (c :: l)) = acc := by
  unfold parseEnvLine
  rw [jsTrim_cons_shape hws l]
  have hne : String.mk (c :: dropTrailWs l) ≠ "" := by
    simp [String.ext_iff]
  have hmatch : matchKeyValue (String.mk (c :: dropTrailWs l)) = none := by
    unfold matchKeyValue
    simp [List.takeWhile_cons, hword]
  simp [hne, hhash, hmatch]

theorem parseEnvLine_possible (acc : List (String × String)) (l : List Char) :
    parseEnvLine acc
      (String.mk ('P' :: 'o' :: 's' :: 's' :: 'i' :: 'b' :: 'l' :: 'e' :: ' ' :: 'v' :: l)) = acc := by
  unfold parseEnvLine
  rw [jsTrim_cons_shape (by decide),
    show ('o' :: 's' :: 's' :: 'i' :: 'b' :: 'l' :: 'e' :: ' ' :: 'v' :: l : List Char)
      = ['o', 's', 's', 'i', 'b', 'l', 'e', ' '] ++ 'v' :: l from rfl,
    dropTrailWs_append_keep (by decide)]
  rfl

theorem commentLine_inert (acc : List (String × String)) (opt : EnvOption) :
    parseEnvLine acc (commentLine opt) = acc := by
  unfold commentLine
  rw [parseEnvLine_jsTrim]
  by_cases hd : opt.description = ""
  · rw [if_pos hd]
    rcases ht : opt.type with _ | t
    · rcases ho : opt.options with _ | lopts
      · by_cases hr : opt.required = true
        · rw [hr]; rfl
        · rw [Bool.not_eq_true] at hr
          rw [hr]; rfl
      · by_cases hr : opt.required = true
        · rw [hr]
          exact (parseEnvLine_ws_cons (by decide) acc _).trans
            (parseEnvLine_possible acc _)
        · rw [Bool.not_eq_true] at hr
          rw [hr]
          exact (parseEnvLine_ws_cons (by decide) acc _).trans
            (parseEnvLine_possible acc _)
    · exact (parseEnvLine_ws_cons (by decide) acc _).trans
        (parseEnvLine_inert acc '[' _ (by decide) (by decide) (by decide))
  · rw [if_neg hd]
    exact parseEnvLine_hash acc _

theorem string_data_ext {a b : String} (h : a.data = b.data) : a = b := by
  cases a; cases b; cases h; rfl

theorem append_empty_str (a : String) : a ++ "" = a := by
  apply string_data_ext
  rw [data_append]
  exact List.append_nil a.data

theorem cleanToken_props {s : String} (h : cleanToken s = true) :
    (∀ c ∈ s.data, c ≠ '\n' ∧ c ≠ '\r')
    ∧ (∀ c, s.data.head? = some c → wsChar c = false ∧ isQuote c = false)
    ∧ (∀ c, s.data.getLast? = some c → wsChar c = false ∧ isQuote c = false) := by
  unfold cleanToken at h
  rw [Bool.and_eq_true, Bool.and_eq_true] at h
  refine ⟨crlfFree_iff.mp h.1.1, ?_, ?_⟩
  · intro c hc
    have h2 := h.1.2
    rw [hc] at h2
    simpa using h2
  · intro c hc
    have h2 := h.2
    rw [hc] at h2
    simpa using h2

theorem validKey_props {k : String} (h : validKey k = true) :
    k.data ≠ [] ∧ ∀ c ∈ k.data, wordChar c = true := by
  unfold validKey at h
  rw [Bool.and_eq_true] at h
  refine ⟨?_, List.all_eq_true.mp h.2⟩
  intro hnil
  rw [hnil] at h
  simp at h

theorem cleanValue_eq_self {s : String} (h : cleanToken s = true) :
    cleanValue s = s := by
  obtain ⟨hcrlf, hhead, hlast⟩ := cleanToken_props h
  unfold cleanValue
  have hlead : dropLeadQuote s.data = s.data := by
    cases hd : s.data with
    | nil => rfl
    | cons c l =>
      have hq := (hhead c (by rw [hd]; rfl)).2
      simp [dropLeadQuote, hq]
  have htrail : dropTrailQuote s.data = s.data := by
    unfold dropTrailQuote
    cases hl : s.data.getLast? with
    | none => simp
    | some c =>
      have hq := (hlast c hl).2
      simp [hq]
  have hsq : stripQuotes s = s := by
    rw [stripQuotes_eq, hlead, htrail]
  rw [hsq]
  exact jsTrim_eq_self (fun c hc => (hhead c hc).1) (fun c hc => (hlast c hc).1)

theorem parseEnvLine_keyline (acc : List (String × String)) (k dv : String)
    (hk : validKey k = true) (hdv : cleanToken dv = true) :
    parseEnvLine acc (k ++ "=" ++ dv) = updateAssoc acc k dv := by
  obtain ⟨hkne, hkword⟩ := validKey_props hk
  obtain ⟨hcrlf, hhead, hlast⟩ := cleanToken_props hdv
  obtain ⟨c, krest, hcons⟩ := List.exists_cons_of_ne_nil hkne
  have hdata : (k ++ "=" ++ dv).data = k.data ++ '=' :: dv.data := by
    rw [data_append, data_append, List.append_assoc]
    rfl
  have htrim : jsTrim (k ++ "=" ++ dv) = k ++ "=" ++ dv := by
    apply jsTrim_eq_self
    · intro d hd
      rw [hdata, hcons] at hd
      rw [List.cons_append, List.head?_cons] at hd
      cases hd
      exact wordChar_not_ws (hkword c (by rw [hcons]; exact List.mem_cons_self c krest))
    · intro d hd
      rw [hdata] at hd
      cases hdv2 : dv.data with
      | nil =>
        rw [hdv2] at hd
        rw [show ('=' :: ([] : List Char)) = [('=' : Char)] from rfl,
          List.getLast?_concat] at hd
        cases hd
        decide
      | cons y ys =>
        rw [hdv2, List.getLast?_append_of_ne_nil k.data (by simp),
          List.getLast?_cons_cons] at hd
        exact (hlast d (by rw [hdv2]; exact hd)).1
  have hempty : k.data.isEmpty = false := by rw [hcons]; rfl
  have hv : dv.data.dropWhile wsChar = dv.data := by
    cases hdv2 : dv.data with
    | nil => rfl
    | cons y ys =>
      rw [List.dropWhile_cons, (hhead y (by rw [hdv2]; rfl)).1]
      simp
  have hany : (dv.data.any fun d => d = '\r' || d = '\n') = false := by
    rw [List.any_eq_false]
    intro d hd
    have := hcrlf d hd
    simp [this.1, this.2]
  have hmatch : matchKeyValue (k ++ "=" ++ dv) = some (k, dv) := by
    unfold matchKeyValue
    obtain ⟨htake, hdrop⟩ :=
      takeWhile_all_append hkword (by decide : wordChar '=' = false) dv.data
    simp only [hdata]
    rw [htake, hdrop, hempty]
    simp only [Bool.false_eq_true, if_false]
    rw [List.dropWhile_cons]
    simp only [show wsChar '=' = false from by decide, Bool.false_eq_true, if_false]
    rw [hv, hany]
    rfl
  have hne2 : (k ++ "=" ++ dv) ≠ "" := by
    intro hcontra
    have hd0 : (k ++ "=" ++ dv).data = [] := by rw [hcontra]
    rw [hdata, hcons] at hd0
    simp at hd0
  have hnothash : ¬ ((k ++ "=" ++ dv).data.head? = some '#') := by
    rw [hdata, hcons, List.cons_append, List.head?_cons]
    intro hcontra
    cases hcontra
    have hw := hkword '#' (by rw [hcons]; exact List.mem_cons_self _ krest)
    exact absurd hw (by decide)
  unfold parseEnvLine
  rw [htrim]
  rw [if_neg hne2, if_neg hnothash, hmatch]
  show updateAssoc acc k (cleanValue dv) = updateAssoc acc k dv
  rw [cleanValue_eq_self hdv]

theorem crlfFree_append (a b : String) :
    crlfFree (a ++ b) = (crlfFree a && crlfFree b) := by
  simp [crlfFree, data_append, List.all_append]

theorem mem_dropTrailWs {l : List Char} {c : Char}
    (h : c ∈ dropTrailWs l) : c ∈ l := by
  unfold dropTrailWs at h
  rw [List.mem_reverse] at h
  have h2 : c ∈ l.reverse := (List.dropWhile_suffix wsChar).subset h
  exact List.mem_reverse.mp h2

theorem mem_jsTrim {s : String} {c : Char} (h : c ∈ (jsTrim s).data) :
    c ∈ s.data := by
  have h1 : c ∈ s.data.dropWhile wsChar := mem_dropTrailWs h
  exact (List.dropWhile_suffix wsChar).subset h1

theorem crlfFree_jsTrim {s : String} (h : crlfFree s = true) :
    crlfFree (jsTrim s) = true := by
  rw [crlfFree_iff] at h ⊢
  exact fun c hc => h c (mem_jsTrim hc)

theorem crlfFree_joinSep (sep : String) (hsep : crlfFree sep = true) :
    ∀ {L : List String}, (∀ m ∈ L, crlfFree m = true) →
      crlfFree (joinSep sep L) = true
  | [], _ => rfl
  | [x], h => h x (by simp)
  | x :: y :: ys, h => by
      have ih := crlfFree_joinSep sep hsep (L := y :: ys)
        (fun m hm => h m (by simp [hm]))
      show crlfFree ((x ++ sep) ++ joinSep sep (y :: ys)) = true
      rw [crlfFree_append, crlfFree_append]
      simp [h x (by simp), hsep, ih]

theorem crlfFree_of_validKey {k : String} (h : validKey k = true) :
    crlfFree k = true := by
  obtain ⟨-, hword⟩ := validKey_props h
  rw [crlfFree_iff]
  intro c hc
  have hw := hword c hc
  constructor
  · intro hcontra; subst hcontra; exact absurd hw (by decide)
  · intro hcontra; subst hcontra; exact absurd hw (by decide)

theorem crlfFree_commentLine {opt : EnvOption}
    (hdesc : crlfFree opt.description = true)
    (hopts : ∀ l, opt.options = some l → ∀ m ∈ l, crlfFree m = true) :
    crlfFree (commentLine opt) = true := by
  simp only [commentLine]
  apply crlfFree_jsTrim
  rw [crlfFree_append, crlfFree_append, crlfFree_append]
  have h1 : crlfFree (if opt.description = "" then ""
      else "# " ++ opt.description) = true := by
    by_cases hd : opt.description = ""
    · rw [if_pos hd]; decide
    · rw [if_neg hd, crlfFree_append]
      simp [show crlfFree "# " = true from by decide, hdesc]
  have h2 : crlfFree (match opt.type with
      | some t => " [" ++ typeName t ++ "]"
      | none => "") = true := by
    rcases opt.type with _ | t
    · decide
    · cases t <;> decide
  have h3 : crlfFree (match opt.options with
      | some l => " Possible values: " ++ joinSep ", " l
      | none => "") = true := by
    rcases ho : opt.options with _ | l
    · decide
    · rw [crlfFree_append]
      have hjoin := crlfFree_joinSep ", "
        (show crlfFree ", " = true from by decide) (hopts l ho)
      simp [show crlfFree " Possible values: " = true from by decide, hjoin]
  have h4 : crlfFree (if opt.required = true then " (required)" else "")
      = true := by
    by_cases hr : opt.required = true
    · rw [if_pos hr]; decide
    · rw [if_neg hr]; decide
  simp [h1, h2, h3, h4]

theorem crlfFree_exampleLine {k : String} {opt : EnvOption}
    (hk : validKey k = true) (hdv : cleanToken (defaultString opt) = true) :
    crlfFree (exampleLine k opt) = true := by
  unfold exampleLine
  have hkfree := crlfFree_of_validKey hk
  have hdvfree : crlfFree (defaultString opt) = true := by
    unfold cleanToken at hdv
    rw [Bool.and_eq_true, Bool.and_eq_true] at hdv
    exact hdv.1.1
  by_cases h : defaultString opt = ""
  · rw [if_pos h, crlfFree_append]
    simp [hkfree, show crlfFree "=" = true from by decide]
  · rw [if_neg h, crlfFree_append, crlfFree_append]
    simp [hkfree, hdvfree, show crlfFree "=" = true from by decide]

theorem parse_template_blocks :
    ∀ (config : List (String × EnvOption)) (acc : List (String × String)),
      (∀ kv ∈ config, validKey kv.1 = true) →
      (∀ kv ∈ config, cleanToken (defaultString kv.2) = true) →
      (∀ kv ∈ config, ∀ p ∈ acc, p.1 ≠ kv.1) →
      (config.map Prod.fst).Nodup →
      (config.flatMap
          (fun kv => [commentLine kv.2, exampleLine kv.1 kv.2, ""])).foldl
        parseEnvLine acc
        = acc ++ config.map (fun kv => (kv.1, defaultString kv.2))
  | [], acc, _, _, _, _ => by simp
  | (k, opt) :: rest, acc, hkeys, hclean, hfresh, hnodup => by
    rw [List.flatMap_cons, List.foldl_append]
    rw [List.map_cons, List.nodup_cons] at hnodup
    have hkv : validKey k = true := hkeys (k, opt) (by simp)
    have hdv : cleanToken (defaultString opt) = true := hclean (k, opt) (by simp)
    have hexample : exampleLine k opt = k ++ "=" ++ defaultString opt := by
      unfold exampleLine
      by_cases h : defaultString opt = ""
      · rw [if_pos h, h, append_empty_str]
      · rw [if_neg h]
    have hblock : List.foldl parseEnvLine acc
        [commentLine opt, exampleLine k opt, ""]
        = acc ++ [(k, defaultString opt)] := by
      simp only [List.foldl_cons, List.foldl_nil]
      rw [commentLine_inert, hexample, parseEnvLine_keyline acc k _ hkv hdv]
      rw [show parseEnvLine (updateAssoc acc k (defaultString opt)) ""
        = updateAssoc acc k (defaultString opt) from rfl]
      exact updateAssoc_of_fresh
        (fun p hp => hfresh (k, opt) (by simp) p hp) _
    rw [hblock]
    have ihfresh : ∀ kv ∈ rest, ∀ p ∈ acc ++ [(k, defaultString opt)],
        p.1 ≠ kv.1 := by
      intro kv hkv2 p hp
      rcases List.mem_append.mp hp with h | h
      · exact hfresh kv (by simp [hkv2]) p h
      · have hp1 : p.1 = k := by
          have hpk : p = (k, defaultString opt) := by simpa using h
          rw [hpk]
        rw [hp1]
        intro hcontra
        exact hnodup.1 (by rw [hcontra]; exact List.mem_map.mpr ⟨kv, hkv2, rfl⟩)
    rw [parse_template_blocks rest (acc ++ [(k, defaultString opt)])
      (fun kv h => hkeys kv (by simp [h])) (fun kv h => hclean kv (by simp [h]))
      ihfresh hnodup.2]
    simp

end EnvLoader


open EnvLoader

/-- C3: with two discovered files where the first defines `SHARED=base` and
`OVERRIDE=base` and the second defines `OVERRIDE=override` and
`EXTRA=added`, a merging load yields `SHARED=base`, `OVERRIDE=override`,
`EXTRA=added` (later files overwrite earlier ones), while a first-match
load parses only the first file, so `EXTRA` is absent (no override value or
default supplies it). -/
theorem C3_merge_and_first_match_policies :
    load [("SHARED", {}), ("OVERRIDE", {}), ("EXTRA", {})]
        (mkConfig (some { searchPaths := some ["cfg"], fileNames := some ["a.env", "b.env"], merge := some true }))
        "/proj"
        [("/proj/cfg/a.env", "SHARED=base\nOVERRIDE=base"),
         ("/proj/cfg/b.env", "OVERRIDE=override\nEXTRA=added")]
        []
      = [("SHARED", "base"), ("OVERRIDE", "override"), ("EXTRA", "added")]
    ∧ load [("SHARED", {}), ("OVERRIDE", {}), ("EXTRA", {})]
        (mkConfig (some { searchPaths := some ["cfg"], fileNames := some ["a.env", "b.env"], merge := some false }))
        "/proj"
        [("/proj/cfg/a.env", "SHARED=base\nOVERRIDE=base"),
         ("/proj/cfg/b.env", "OVERRIDE=override\nEXTRA=added")]
        []
      = [("SHARED", "base"), ("OVERRIDE", "base")]
    ∧ List.lookup "EXTRA"
        (load [("SHARED", {}), ("OVERRIDE", {}), ("EXTRA", {})]
          (mkConfig (some { searchPaths := some ["cfg"], fileNames := some ["a.env", "b.env"], merge := some false }))
          "/proj"
          [("/proj/cfg/a.env", "SHARED=base\nOVERRIDE=base"),
           ("/proj/cfg/b.env", "OVERRIDE=override\nEXTRA=added")]
          []) = none := by
  decide

/-- C4: a `number`-typed key without a custom converter is parsed by the
JavaScript numeric grammar, and a conversion error is recorded exactly when
the raw value is not a valid number; `"5000"` converts to the number 5000
and `"abc"` fails conversion. -/
theorem C4_number_conversion :
    parse "5000" (some EnvType.number)
      = Except.ok (JsValue.num (JsNum.finite 5000))
    ∧ parse "abc" (some EnvType.number) = Except.error "Not a number: abc"
    ∧ ∀ v : String,
        parse v (some EnvType.number) =
          match jsNumberOfString v with
          | some n => Except.ok (JsValue.num n)
          | none => Except.error ("Not a number: " ++ v) := by
  refine ⟨by decide, by decide, fun v => ?_⟩
  unfold parse
  cases jsNumberOfString v <;> rfl

/-- C5: a `boolean`-typed key without a custom converter converts by a
case-insensitive match: the truthy set gives `true`, the falsy set gives
`false`, any other non-empty string gives `true`, and the empty string
gives `false`. -/
theorem C5_boolean_conversion :
    (∀ s : String,
      parse s (some EnvType.boolean) =
        Except.ok (JsValue.bool
          (if ["true", "1", "yes", "on"].contains (jsToLower s) then true
           else if ["false", "0", "no", "off"].contains (jsToLower s) then false
           else s != "")))
    ∧ parse "TrUe" (some EnvType.boolean) = Except.ok (JsValue.bool true)
    ∧ parse "oFF" (some EnvType.boolean) = Except.ok (JsValue.bool false)
    ∧ parse "whatever" (some EnvType.boolean) = Except.ok (JsValue.bool true)
    ∧ parse "" (some EnvType.boolean) = Except.ok (JsValue.bool false) := by
  refine ⟨fun s => by simp only [parse]; split_ifs <;> rfl,
    by decide, by decide, by decide, by decide⟩

/-- C10: the effective merge policy is the `merge` option whenever it is
defined — even when explicitly `false` — falling back to the deprecated
`cascade` option only when `merge` is undefined, and defaulting to
first-match (`false`) when both are undefined; in particular
`merge: false` together with `cascade: true` selects first-match. -/
theorem C10_merge_option_resolution :
    (mkConfig (some { merge := some false, cascade := some true })).merge = false
    ∧ (mkConfig (some { merge := some true })).merge = true
    ∧ (mkConfig (some { cascade := some true })).merge = true
    ∧ (mkConfig (some { cascade := some false })).merge = false
    ∧ (mkConfig none).merge = false
    ∧ ∀ o : EnvLoaderConfig,
        (mkConfig (some o)).merge = o.merge.getD (o.cascade.getD false) := by
  exact ⟨by decide, by decide, by decide, by decide, by decide, fun o => rfl⟩

/-- C2 counterexample: with schema key `FOO` renamed to `bar` and a raw
value present, the Validated Config stores the converted value under the
schema key `FOO`; the rename `bar` is not a key of the map, contradicting
the claim that the value is stored under the rename. -/
theorem C2_counterexample :
    validate [("FOO", "v")] [("FOO", { name := some "bar" })]
      = Except.ok [("FOO", JsValue.str "v")]
    ∧ (validate [("FOO", "v")] [("FOO", { name := some "bar" })]).toOption.bind
        (List.lookup "bar") = none := by
  decide

/-- C6 counterexample: a key declared with allowed values
`production`/`development` and raw value `invalid` fails with a message that
names the key and the offending value but does not name the allowed set,
contradicting the claim that the message names the allowed set. -/
theorem C6_counterexample :
    validate [("MODE", "invalid")]
        [("MODE", { options := some ["production", "development"], required := true })]
      = Except.error "Env validation failed:\nInvalid 'MODE': invalid"
    ∧ ¬ List.IsInfix "production".data
        "Env validation failed:\nInvalid 'MODE': invalid".data
    ∧ ¬ List.IsInfix "development".data
        "Env validation failed:\nInvalid 'MODE': invalid".data := by
  decide

/-- C7 counterexample: the line `K='abc` carries an unpaired leading quote,
yet the parser strips it — the stored value is `abc`, not `'abc` as the
claim (quotes removed only as matching pairs) requires. -/
theorem C7_counterexample :
    parseEnvText "K='abc" = [("K", "abc")]
    ∧ List.lookup "K" (parseEnvText "K='abc") ≠ some "'abc" := by
  decide

/-- C8 counterexample: a key that is both required and has the non-empty
default `x` is emitted as `K=x`, not as `K=` as the claim predicts for
required keys. -/
theorem C8_counterexample :
    genTemplateLines [("K", { description := "d", required := true, default := some (JsValue.str "x") })] = ["# d (required)", "K=x", ""]
    ∧ ["# d (required)", "K=x", ""] ≠ ["# d (required)", "K=", ""] := by
  decide

/-- C9 counterexample: for a schema whose key `A B` contains a space, the
generated template line `A B=` does not match the parser's key pattern, so
the round trip loses the key entirely — the parsed map is empty rather than
mapping `A B` to the empty string. -/
theorem C9_counterexample :
    parseEnvText (templateText [("A B", { description := "d" })]) = []
    ∧ List.lookup "A B"
        (parseEnvText (templateText [("A B", { description := "d" })]))
      ≠ some "" := by
  decide

/-- C7 (amended): the value cleanup removes at most one leading and at most
one trailing quote character independently — a matching surrounding pair is
not required — and then trims the result; a matching pair is still removed
as exactly one layer. -/
theorem C7_amended :
    (∀ v : String,
      cleanValue v = jsTrim (String.mk (dropTrailQuote (dropLeadQuote v.data))))
    ∧ cleanValue "\"abc\"" = "abc"
    ∧ cleanValue "'abc'" = "abc"
    ∧ cleanValue "''abc''" = "'abc'"
    ∧ cleanValue "'abc" = "abc"
    ∧ cleanValue "abc\"" = "abc"
    ∧ cleanValue "\"abc'" = "abc" := by
  refine ⟨fun v => ?_, by decide, by decide, by decide, by decide, by decide,
    by decide⟩
  unfold cleanValue
  rw [stripQuotes_eq]

/-- C8 (amended): each schema key contributes three template lines — its
comment line, then `key=<stringified default>` when the default's string
form is non-empty and `key=` otherwise (the `required` flag plays no role
in the example line), then a blank separator line. -/
theorem C8_amended :
    (∀ config : List (String × EnvOption),
      genTemplateLines config
        = config.flatMap
            (fun kv => [commentLine kv.2, exampleLine kv.1 kv.2, ""]))
    ∧ (∀ (key : String) (opt : EnvOption),
        exampleLine key opt
          = if defaultString opt = "" then key ++ "="
            else key ++ "=" ++ defaultString opt)
    ∧ (∀ (key : String) (opt : EnvOption) (b : Bool),
        exampleLine key { opt with required := b } = exampleLine key opt) :=
  ⟨genTemplateLines_eq, fun _ _ => rfl, fun _ _ _ => rfl⟩

/-- C1: if processing the schema collects at least one per-key error
(missing required key, conversion failure, or disallowed value), the load
fails with a single error whose message contains every collected message;
splitting the message at newlines yields the fixed header line followed by
one collected message per line, with the missing-required line leading when
any required key is missing; with no per-key error, the accumulated result
map is returned. -/
theorem C1_error_accumulation (env : List (String × String))
    (opts : List (String × EnvOption)) :
    (reportLines (validateCore env opts) = [] →
      validate env opts = Except.ok (validateCore env opts).result)
    ∧ (reportLines (validateCore env opts) ≠ [] →
        validate env opts
          = Except.error ("Env validation failed:\n"
              ++ joinSep "\n" (reportLines (validateCore env opts)))
        ∧ (∀ m ∈ reportLines (validateCore env opts),
            m.data.IsInfix ("Env validation failed:\n"
              ++ joinSep "\n" (reportLines (validateCore env opts))).data)
        ∧ ((validateCore env opts).missing ≠ [] →
            (reportLines (validateCore env opts)).head?
              = some (missingLine (validateCore env opts).missing))
        ∧ ((∀ m ∈ reportLines (validateCore env opts), crlfFree m = true) →
            splitLines ("Env validation failed:\n"
                ++ joinSep "\n" (reportLines (validateCore env opts)))
              = "Env validation failed:"
                  :: reportLines (validateCore env opts))) := by
  have hrep : (if (validateCore env opts).missing.isEmpty
        then (validateCore env opts).errors
        else missingLine (validateCore env opts).missing
          :: (validateCore env opts).errors)
      = reportLines (validateCore env opts) := by
    unfold reportLines
    cases h : (validateCore env opts).missing.isEmpty <;> simp [h]
  constructor
  · intro h
    show (if (if (validateCore env opts).missing.isEmpty
          then (validateCore env opts).errors
          else missingLine (validateCore env opts).missing
            :: (validateCore env opts).errors).isEmpty
        then Except.ok (validateCore env opts).result
        else Except.error ("Env validation failed:\n"
          ++ joinSep "\n" (if (validateCore env opts).missing.isEmpty
            then (validateCore env opts).errors
            else missingLine (validateCore env opts).missing
              :: (validateCore env opts).errors)))
      = Except.ok (validateCore env opts).result
    rw [hrep, h]
    rfl
  · intro h
    have hne : (reportLines (validateCore env opts)).isEmpty = false := by
      cases hrl : reportLines (validateCore env opts)
      · exact absurd hrl h
      · rfl
    refine ⟨?_, ?_, ?_, ?_⟩
    · show (if (if (validateCore env opts).missing.isEmpty
            then (validateCore env opts).errors
            else missingLine (validateCore env opts).missing
              :: (validateCore env opts).errors).isEmpty
          then Except.ok (validateCore env opts).result
          else Except.error ("Env validation failed:\n"
            ++ joinSep "\n" (if (validateCore env opts).missing.isEmpty
              then (validateCore env opts).errors
              else missingLine (validateCore env opts).missing
                :: (validateCore env opts).errors)))
        = _
      rw [hrep, hne]
      rfl
    · intro m hm
      have hinf := mem_joinSep_infix "\n" hm
      have hsuffix : (joinSep "\n" (reportLines (validateCore env opts))).data.IsSuffix
          ("Env validation failed:\n"
            ++ joinSep "\n" (reportLines (validateCore env opts))).data := by
        rw [data_append]
        exact List.suffix_append _ _
      exact hinf.trans hsuffix.isInfix
    · intro hmiss
      have hie : (validateCore env opts).missing.isEmpty = false := by
        cases hm : (validateCore env opts).missing
        · exact absurd hm hmiss
        · rfl
      unfold reportLines
      rw [hie]
      rfl
    · intro hcrlf
      rcases hrl : reportLines (validateCore env opts) with _ | ⟨r, rs⟩
      · exact absurd hrl h
      · have hjoin : ("Env validation failed:\n"
              ++ joinSep "\n" (r :: rs))
            = joinSep "\n" ("Env validation failed:" :: r :: rs) := by
          show _ = ("Env validation failed:" ++ "\n") ++ joinSep "\n" (r :: rs)
          rw [show ("Env validation failed:" ++ "\n")
            = "Env validation failed:\n" by decide]
        rw [hjoin,
          splitLines_joinSep ("Env validation failed:" :: r :: rs) (by simp)]
        intro m hm
        rcases List.mem_cons.mp hm with h1 | h1
        · subst h1; decide
        · exact hcrlf m (by rw [hrl]; exact h1)

/-- C1 witness: a schema with one missing required key, one failed number
conversion and one disallowed value fails with all three messages in one
report, one per line after the header. -/
theorem C1_witness :
    validate [("NUM", "abc"), ("MODE", "bad")]
        [("REQ", { required := true }),
         ("NUM", { type := some EnvType.number }),
         ("MODE", { options := some ["a"] })]
      = Except.error "Env validation failed:\nMissing required: REQ\nError parsing 'NUM': Not a number: abc\nInvalid 'MODE': bad"
    ∧ splitLines "Env validation failed:\nMissing required: REQ\nError parsing 'NUM': Not a number: abc\nInvalid 'MODE': bad"
      = ["Env validation failed:", "Missing required: REQ",
         "Error parsing 'NUM': Not a number: abc", "Invalid 'MODE': bad"] := by
  have h := C1_error_accumulation [("NUM", "abc"), ("MODE", "bad")]
    [("REQ", { required := true }),
     ("NUM", { type := some EnvType.number }),
     ("MODE", { options := some ["a"] })]
  have h2 := h.2 (by decide)
  constructor
  · rw [h2.1]; decide
  · have h4 := h2.2.2.2 (by decide)
    rw [show ("Env validation failed:\nMissing required: REQ\nError parsing 'NUM': Not a number: abc\nInvalid 'MODE': bad" : String)
      = "Env validation failed:\n"
        ++ joinSep "\n" (reportLines (validateCore [("NUM", "abc"), ("MODE", "bad")]
          [("REQ", { required := true }),
           ("NUM", { type := some EnvType.number }),
           ("MODE", { options := some ["a"] })])) by decide, h4]
    decide

/-- C2 (amended): the Validated Config stores the converted value under the
schema key itself even when a rename is declared — the rename is not a key
of the map; accessing the rename through the proxy wrapper resolves the
alias and yields the value stored under the schema key. -/
theorem C2_amended (key nm raw : String) (hne : nm ≠ key)
    (hsp : specialProps.contains nm = false) :
    validate [(key, raw)] [(key, { name := some nm })]
      = Except.ok [(key, JsValue.str raw)]
    ∧ List.lookup nm [(key, JsValue.str raw)] = none
    ∧ proxyGet [(key, { name := some nm })] [(key, JsValue.str raw)] nm
      = ProxyResult.value (JsValue.str raw) := by
  have hbne : (nm == key) = false := beq_eq_false_iff_ne.mpr hne
  refine ⟨?_, ?_, ?_⟩
  · unfold validate validateCore validateStep convertRaw
    simp [List.lookup, parse, updateAssoc, reportLines, Except.mapError]
  · simp [List.lookup, hbne]
  · have hnmem : nm ∉ specialProps := by simpa using hsp
    unfold proxyGet
    simp [hnmem, List.lookup, hbne, List.find?]

/-- C2 amended witness: key `FOO` renamed to `bar` with raw value `v`. -/
theorem C2_amended_witness :
    validate [("FOO", "v")] [("FOO", { name := some "bar" })]
      = Except.ok [("FOO", JsValue.str "v")]
    ∧ List.lookup "bar" [("FOO", JsValue.str "v")] = none
    ∧ proxyGet [("FOO", { name := some "bar" })] [("FOO", JsValue.str "v")] "bar"
      = ProxyResult.value (JsValue.str "v") :=
  C2_amended "FOO" "bar" "v" (by decide) (by decide)

/-- C6 (amended): for a key with a declared allowed-value set and a raw
value whose conversion succeeds, the converted value is stored exactly when
its string form is a member of the set; otherwise the key is not stored and
the load fails with a message naming the key and the offending value (the
allowed set itself is not part of the message). -/
theorem C6_amended (key raw : String) (opt : EnvOption) (allowed : List String)
    (parsed : JsValue)
    (hopt : opt.options = some allowed)
    (hconv : convertRaw opt raw = Except.ok parsed) :
    (allowed.contains (jsValueToString parsed) = true →
      validate [(key, raw)] [(key, opt)] = Except.ok [(key, parsed)])
    ∧ (allowed.contains (jsValueToString parsed) = false →
      validate [(key, raw)] [(key, opt)]
        = Except.error ("Env validation failed:\nInvalid '" ++ key ++ "': "
            ++ jsValueToString parsed)) := by
  have hlit : ("Env validation failed:\nInvalid '" : String)
      = "Env validation failed:\n" ++ "Invalid '" := by decide
  constructor
  · intro hmem
    have hm : jsValueToString parsed ∈ allowed := by simpa using hmem
    unfold validate validateCore validateStep
    simp [List.lookup, hconv, hopt, hm, updateAssoc, reportLines]
  · intro hmem
    have hm : jsValueToString parsed ∉ allowed := by simpa using hmem
    unfold validate validateCore validateStep
    simp [List.lookup, hconv, hopt, hm, reportLines, missingLine, joinSep]
    rw [hlit]
    simp only [String.append_assoc]

/-- C6 amended witness: allowed set `production`/`development`, raw value
`invalid` (a string key, so the converted value is the raw string). -/
theorem C6_amended_witness :
    validate [("MODE", "invalid")]
        [("MODE", { options := some ["production", "development"] })]
      = Except.error ("Env validation failed:\nInvalid '" ++ "MODE" ++ "': "
          ++ jsValueToString (JsValue.str "invalid")) :=
  (C6_amended "MODE" "invalid"
    { options := some ["production", "development"] }
    ["production", "development"] (JsValue.str "invalid")
    rfl rfl).2 (by decide)

/-- C9 (amended): for every schema whose keys fully match the parser's key
pattern and are pairwise distinct, whose descriptions and allowed-value
strings contain no CR/LF, and whose defaults' string forms contain no CR/LF
and neither start nor end with whitespace or a quote character, parsing the
generated template text recovers exactly each key mapped to its default's
string form (the empty string when no default is declared); the template's
comment lines contribute no entries. -/
theorem C9_amended (config : List (String × EnvOption))
    (hkeys : ∀ kv ∈ config, validKey kv.1 = true)
    (hnodup : (config.map Prod.fst).Nodup)
    (hdesc : ∀ kv ∈ config, crlfFree kv.2.description = true)
    (hopts : ∀ kv ∈ config, ∀ l, kv.2.options = some l →
      ∀ m ∈ l, crlfFree m = true)
    (hdefaults : ∀ kv ∈ config, cleanToken (defaultString kv.2) = true) :
    parseEnvText (templateText config)
      = config.map (fun kv => (kv.1, defaultString kv.2)) := by
  cases config with
  | nil => rfl
  | cons kv0 rest =>
    unfold parseEnvText templateText
    rw [genTemplateLines_eq]
    have hne : ((kv0 :: rest).flatMap
        (fun kv => [commentLine kv.2, exampleLine kv.1 kv.2, ""])) ≠ [] := by
      rw [List.flatMap_cons]
      simp
    have hlines : ∀ m ∈ (kv0 :: rest).flatMap
        (fun kv => [commentLine kv.2, exampleLine kv.1 kv.2, ""]),
        crlfFree m = true := by
      intro m hm
      rw [List.mem_flatMap] at hm
      obtain ⟨kv, hkv, hm2⟩ := hm
      simp only [List.mem_cons, List.mem_singleton, List.not_mem_nil,
        or_false] at hm2
      rcases hm2 with rfl | rfl | rfl
      · exact crlfFree_commentLine (hdesc kv hkv) (hopts kv hkv)
      · exact crlfFree_exampleLine (hkeys kv hkv) (hdefaults kv hkv)
      · rfl
    rw [splitLines_joinSep _ hne hlines]
    rw [parse_template_blocks (kv0 :: rest) [] hkeys hdefaults
      (by simp) hnodup]
    simp

/-- C9 amended witness: a two-key schema — `PORT` with default `3000` and a
description, `HOST` with no default — round-trips to the raw map mapping
`PORT` to `3000` and `HOST` to the empty string. -/
theorem C9_amended_witness :
    parseEnvText (templateText
        [("PORT", { description := "port", type := some EnvType.number, default := some (JsValue.str "3000") }),
         ("HOST", { description := "host name" })])
      = [("PORT", "3000"), ("HOST", "")] :=
  C9_amended
    [("PORT", { description := "port", type := some EnvType.number, default := some (JsValue.str "3000") }),
     ("HOST", { description := "host name" })]
    (by decide) (by decide) (by decide) (by decide) (by decide)
